import Mathlib

/-!
Verification of the handel-rs aggregation core against its specification.

The Rust source is shallowly embedded:
* `collections::bitset::BitSet` (an external collaborator) is modelled as `Finset ℕ`;
  its `^` operator (bitwise xor = symmetric difference) is `bitsetXor`.
* BLS primitives are opaque to the core (spec §1), so an individual `Signature`
  is an abstract atom (`ℕ`) and an `AggregateSignature` is the formal sum of the
  atoms aggregated into it (`Multiset ℕ`); `AggregateSignature::merge_into` is
  multiset addition and `AggregateSignature::aggregate` adds one atom.
* Fallible Rust functions return `Except`/`Option`.
-/

/-- Bitwise xor of two bitsets: the symmetric difference. -/
def bitsetXor (a b : Finset ℕ) : Finset ℕ := (a \ b) ∪ (b \ a)

/-- Ascending iteration over a bitset (`BitSet::iter` yields the set ids in
increasing order), computed as a filter of an initial range so that it
evaluates by reduction. -/
def finsetAsc (s : Finset ℕ) : List ℕ :=
  (List.range (s.sup id + 1)).filter fun i => decide (i ∈ s)

/-- Error type of `MultiSignature` operations (src/handel/multisig.rs). -/
inductive MultiSigError where
  | overlapping (overlap : Finset ℕ)
  | contained (peer : ℕ)
deriving DecidableEq

/-- `MultiSignature` (src/handel/multisig.rs): aggregate signature plus signer bitset. -/
structure MultiSignature where
  signature : Multiset ℕ
  signers : Finset ℕ
deriving DecidableEq

/-- `MultiSignature::from_individual`: a fresh aggregate holding one signature
and a signer bitset holding one id. -/
def MultiSignature.from_individual (signature : ℕ) (signer : ℕ) : MultiSignature :=
  { signature := {signature}, signers := {signer} }

/-- `MultiSignature::len`: cardinality of the signer bitset. -/
def MultiSignature.len (self : MultiSignature) : ℕ := self.signers.card

/-- `MultiSignature::add_multisig` (src/handel/multisig.rs lines 48-60).
The source computes `overlap = self.signers & other.signers`; on empty overlap it
merges the aggregates and then assigns `self.signers = self.signers & other.signers`
(line 54 — the intersection, faithfully reproduced here), otherwise it fails. -/
def MultiSignature.add_multisig (self other : MultiSignature) :
    Except MultiSigError MultiSignature :=
  let overlap := self.signers ∩ other.signers
  if overlap = ∅ then
    Except.ok { signature := self.signature + other.signature,
                signers := self.signers ∩ other.signers }
  else
    Except.error (MultiSigError.overlapping overlap)

/-- `MultiSignature::add_individual` (src/handel/multisig.rs lines 62-71). -/
def MultiSignature.add_individual (self : MultiSignature) (other : ℕ) (peer_id : ℕ) :
    Except MultiSigError MultiSignature :=
  if peer_id ∈ self.signers then
    Except.error (MultiSigError.contained peer_id)
  else
    Except.ok { signature := other ::ₘ self.signature,
                signers := insert peer_id self.signers }

/-!
The partitioner module (src/handel/partitioner.rs). The file in the source tree
is an older revision: it does not compile against its callers (the agent calls
`BinomialPartitioner::new(node_id, max_id)`, and agent/store/level use fields
`max_id` and `num_levels` and methods `range`, `size` and `combine` that this
revision lacks). It is embedded faithfully below for the claims that cite it;
the members missing from the tree are modelled from the spec further down.
-/

/-- Error type of the partitioner (src/handel/partitioner.rs). -/
inductive PartitioningError where
  | invalidLevel (level : ℕ)
  | emptyLevel (level : ℕ)
deriving DecidableEq

/-- Bit length of a 64-bit word: `64 - leading_zeros(x)`, written as the number
of exponents `k < 64` with `2^k ≤ x` so that it evaluates by reduction. -/
def bitLen64 (x : ℕ) : ℕ := (List.range 64).countP (fun k => decide (2 ^ k ≤ x))

/-- `utils::log_2` (src/handel/utils.rs): `num_bits::<usize>() - leading_zeros(x) - 1`,
i.e. the bit length of `x` minus one. -/
def log_2 (x : ℕ) : ℕ := bitLen64 x - 1

/-- State of `BinomialPartitioner` as in the source tree: own id, `max_level`
(`log_2` of the roster size) and `size` (the roster size). -/
structure BinomialPartitioner where
  node_id : ℕ
  max_level : ℕ
  size : ℕ

/-- `BinomialPartitioner::new(node_id, identities)` with a roster of `n` identities. -/
def BinomialPartitioner.new (node_id : ℕ) (n : ℕ) : BinomialPartitioner :=
  { node_id := node_id, max_level := log_2 n, size := n }

/-- The bisection loop of `range_level` (src/handel/partitioner.rs lines 62-85):
`while i <= inverse_idx && i >= 0 && min < max`, halving `[min, max]` according
to bit `i` of `node_id`, then `i -= 1`. `i >= 0` always holds for `usize`; when
`i` reaches 0 and the loop would continue, the decrement wraps around and the
wrapped value exceeds `inverse_idx`, so the loop exits (in a debug build the
decrement panics instead; no claim is evaluated there). -/
def rangeBody (node_id inverse_idx i lo hi : ℕ) : ℕ × ℕ :=
  let middle := (hi + lo) / 2
  if (node_id >>> i) % 2 = 1 then
    if i = inverse_idx then (lo, middle) else (middle, hi)
  else
    if i = inverse_idx then (middle, hi) else (lo, middle)

/-- Recursion on `i` for `rangeLoop`; see `rangeLoop` for the loop condition. -/
def rangeLoopGo (node_id inverse_idx : ℕ) : ℕ → ℕ → ℕ → ℕ × ℕ
  | 0, lo, hi =>
    if 0 ≤ inverse_idx ∧ lo < hi then rangeBody node_id inverse_idx 0 lo hi
    else (lo, hi)
  | i + 1, lo, hi =>
    if i + 1 ≤ inverse_idx ∧ lo < hi then
      let next := rangeBody node_id inverse_idx (i + 1) lo hi
      rangeLoopGo node_id inverse_idx i next.1 next.2
    else (lo, hi)

def rangeLoop (node_id inverse_idx i lo hi : ℕ) : ℕ × ℕ :=
  rangeLoopGo node_id inverse_idx i lo hi

/-- `BinomialPartitioner::range_level` (src/handel/partitioner.rs lines 47-96).
Level 0 is the node itself; levels above `max_level + 1` are invalid; otherwise
the bisection loop runs from `i = max_level - 1` on the interval
`[0, max_level.pow(2)]` and the result is clamped to the roster size. -/
def BinomialPartitioner.range_level (p : BinomialPartitioner) (level : ℕ) :
    Except PartitioningError (ℕ × ℕ) :=
  if level = 0 then
    Except.ok (p.node_id, p.node_id)
  else if p.max_level + 1 < level then
    Except.error (PartitioningError.invalidLevel level)
  else
    let inverse_idx := level - 1
    let r := rangeLoop p.node_id inverse_idx (p.max_level - 1) 0 (p.max_level ^ 2)
    if p.size ≤ r.1 then
      Except.error (PartitioningError.emptyLevel level)
    else
      Except.ok (r.1, if p.size < r.2 then p.size else r.2)

/-- Bitwise complement within a 64-bit word, as `!mask` computes on `usize`. -/
def usizeNot (x : ℕ) : ℕ := (2 ^ 64 - 1) ^^^ x

/-- The level range formula as the specification states it: with
`m = (1 << (ℓ-1)) - 1` and `f = 1 << (ℓ-1)`, the range is `[min, max]` with
`min = (node_id XOR f) & !m` and `max = (node_id XOR f) | m`. -/
def specRange (node_id level : ℕ) : ℕ × ℕ :=
  let f := 2 ^ (level - 1)
  let m := f - 1
  ((node_id ^^^ f) &&& usizeNot m, (node_id ^^^ f) ||| m)

/-!
The signature store (src/handel/store.rs). The store holds the partitioner
behind an `Arc`; of the partitioner it uses only `max_id`/`num_levels`
(constructor), `size(level)` (scoring) and `combine` (combined query), all of
which are absent from the stale partitioner file in the tree, so those three
are modelled from the spec. The per-level `Vec`s and `BTreeMap`s are modelled
as total functions from levels (the source panics when a level index is out of
bounds; the claims are stated at valid levels).
-/

/-- Modelled from the spec: `BinomialPartitioner::size(level)` is missing from
the source tree; §4.2 fixes `to_receive = 2^(ℓ-1)` for `ℓ ≥ 1` and `1` for
`ℓ = 0`. -/
def partitionerSize : ℕ → ℕ
  | 0 => 1
  | level + 1 => 2 ^ level

/-- Merge of an ordered list of multi-signatures: union of the signer bitsets
and BLS sum of the aggregates, folded left over the list. -/
def mergeList (sigs : List MultiSignature) : MultiSignature :=
  sigs.foldl
    (fun acc ms => { signature := acc.signature + ms.signature,
                     signers := acc.signers ∪ ms.signers })
    { signature := 0, signers := ∅ }

/-- Modelled from the spec: `BinomialPartitioner::combine(signatures, level)` is
missing from the source tree; §4.1 says it merges an ordered list of per-level
multi-signatures into one (union bitset, BLS sum — §3), tagged with the given
level. The tag is not representable in `MultiSignature`, so the level argument
is unused here and the tag computation is exposed as `ReplaceStore.combinedTag`. -/
def partitionerCombine (sigs : List MultiSignature) (_level : ℕ) : Option MultiSignature :=
  some (mergeList sigs)

/-- `ReplaceStore` (src/handel/store.rs lines 23-42). `num_levels` mirrors the
`partitioner.num_levels` the store's constructor reads; `multisig_best` is the
`BTreeMap<usize, MultiSignature>`, and the per-level bitsets and signature maps
are functions from the level. -/
structure ReplaceStore where
  num_levels : ℕ
  best_level : ℕ
  individual_received : Finset ℕ
  individual_verified : ℕ → Finset ℕ
  individual_signatures : ℕ → ℕ → Option ℕ
  multisig_best : ℕ → Option MultiSignature

/-- `ReplaceStore::new` over a roster with `num_levels` levels: empty bitsets,
empty signature maps, no best multi-signatures. -/
def ReplaceStore.new (num_levels : ℕ) : ReplaceStore :=
  { num_levels := num_levels
    best_level := 0
    individual_received := ∅
    individual_verified := fun _ => ∅
    individual_signatures := fun _ _ => none
    multisig_best := fun _ => none }

/-- The loop of `check_merge` (src/handel/store.rs lines 87-98) that folds the
stored individual signatures of the `complements` ids into the multi-signature.
The source panics when a stored signature is missing or an id is already
contained; neither can happen for the ids it is called on (they are distinct
and disjoint from the current signers), so the error branch keeps the
accumulator and the missing-signature lookup defaults. -/
def addIndividualsFold (s : ReplaceStore) (level : ℕ) (m : MultiSignature)
    (ids : List ℕ) : MultiSignature :=
  ids.foldl
    (fun acc id =>
      match acc.add_individual ((s.individual_signatures level id).getD 0) id with
      | Except.ok m2 => m2
      | Except.error _ => acc)
    m

/-- `ReplaceStore::check_merge` (src/handel/store.rs lines 66-107): clone the
candidate, try to merge the current best into it (a failed merge is logged and
ignored), compute `complements = (signers & individual_verified) ^
individual_verified`, reject unless the combination strictly beats the current
best, and otherwise add the stored individual signatures of the complements. -/
def ReplaceStore.check_merge (s : ReplaceStore) (multisig : MultiSignature)
    (level : ℕ) : Option MultiSignature :=
  match s.multisig_best level with
  | none => some multisig
  | some best_multisig =>
    let m := match multisig.add_multisig best_multisig with
      | Except.ok merged => merged
      | Except.error _ => multisig
    let verified := s.individual_verified level
    let complements := bitsetXor (m.signers ∩ verified) verified
    if complements.card + m.len ≤ best_multisig.len then
      none
    else
      some (addIndividualsFold s level m (finsetAsc complements))

/-- `ReplaceStore::put_multisig` (src/handel/store.rs lines 201-211). -/
def ReplaceStore.put_multisig (s : ReplaceStore) (multisig : MultiSignature)
    (level : ℕ) : ReplaceStore :=
  match s.check_merge multisig level with
  | some best_multisig =>
    { s with
      multisig_best := fun i => if i = level then some best_multisig else s.multisig_best i
      best_level := if s.best_level < level then level else s.best_level }
  | none => s

/-- `ReplaceStore::put_individual` (src/handel/store.rs lines 185-199): record
the id in `individual_verified[level]` and the signature in
`individual_signatures[level]`, then put the singleton multi-signature. -/
def ReplaceStore.put_individual (s : ReplaceStore) (individual : ℕ)
    (level peer_id : ℕ) : ReplaceStore :=
  let multisig := MultiSignature.from_individual individual peer_id
  let s2 :=
    { s with
      individual_verified := fun i =>
        if i = level then insert peer_id (s.individual_verified i)
        else s.individual_verified i
      individual_signatures := fun i =>
        if i = level then
          fun p => if p = peer_id then some individual else s.individual_signatures i p
        else s.individual_signatures i }
  s2.put_multisig multisig level

/-- The shared tail of `evaluate_multisig` (src/handel/store.rs lines 148-182):
compute `(new_total, added_sigs, combined_sigs)` from the current best, the
verified-individuals bitset and the candidate, then score. Subtractions are
`ℕ`-truncated exactly where the source uses `saturating_sub`; the others cannot
underflow. -/
def evaluateTail (s : ReplaceStore) (multisig : MultiSignature) (level : ℕ)
    (best : Option MultiSignature) : ℕ :=
  let to_receive := partitionerSize level
  let with_individuals := multisig.signers ∪ s.individual_verified level
  let t :=
    match best with
    | some best_signature =>
      if 0 < (multisig.signers ∩ best_signature.signers).card then
        let new_total := with_individuals.card
        (new_total, new_total - best_signature.len, new_total - multisig.len)
      else
        let final_sig := with_individuals ∪ best_signature.signers
        let new_total := final_sig.card
        let combined_sigs :=
          (bitsetXor final_sig (best_signature.signers ∪ multisig.signers)).card
        (new_total, new_total - best_signature.len, combined_sigs)
    | none =>
      let new_total := with_individuals.card
      (new_total, new_total, new_total - multisig.len)
  if t.2.1 = 0 then
    if multisig.len = 1 then 1 else 0
  else if t.1 = to_receive then
    1000000 - level * 10 - t.2.2
  else
    100000 - level * 100 + t.2.1 * 10 - t.2.2

/-- `ReplaceStore::evaluate_multisig` (src/handel/store.rs lines 123-183):
score 0 when the level's best is already complete or a superset of the
candidate, otherwise score via `evaluateTail`. -/
def ReplaceStore.evaluate_multisig (s : ReplaceStore) (multisig : MultiSignature)
    (level : ℕ) (_votes : ℕ) : ℕ :=
  match s.multisig_best level with
  | some best_signature =>
    if partitionerSize level = best_signature.len then 0
    else if multisig.signers ⊆ best_signature.signers then 0
    else evaluateTail s multisig level (some best_signature)
  | none => evaluateTail s multisig level none

/-- `ReplaceStore::evaluate_individual` (src/handel/store.rs lines 111-121):
0 when the individual signature is already known, otherwise the score of the
synthetic singleton multi-signature. -/
def ReplaceStore.evaluate_individual (s : ReplaceStore) (individual : ℕ)
    (level peer_id : ℕ) : ℕ :=
  match s.individual_signatures level peer_id with
  | some _ => 0
  | none =>
    s.evaluate_multisig (MultiSignature.from_individual individual peer_id) level 1

/-- One step of the collection loop in `ReplaceStore::combined`
(src/handel/store.rs lines 218-225): the `BTreeMap::range(0..=level)` iteration
visits every level in order and skips the absent ones; a present level whose
key exceeds the number collected so far is a gap and aborts. -/
def collectStep (s : ReplaceStore) (acc : Option (List MultiSignature)) (i : ℕ) :
    Option (List MultiSignature) :=
  match acc with
  | none => none
  | some sigs =>
    match s.multisig_best i with
    | none => some sigs
    | some signature =>
      if sigs.length < i then none else some (sigs ++ [signature])

/-- The collection loop of `ReplaceStore::combined` over levels `0..=level`. -/
def ReplaceStore.collectCombined (s : ReplaceStore) (level : ℕ) :
    Option (List MultiSignature) :=
  (List.range (level + 1)).foldl (collectStep s) (some [])

/-- The level tag computed by `ReplaceStore::combined`
(src/handel/store.rs lines 227-230): bump the level unless it is already the
last one. -/
def ReplaceStore.combinedTag (s : ReplaceStore) (level : ℕ) : ℕ :=
  if level < s.num_levels - 1 then level + 1 else level

/-- `ReplaceStore::combined` (src/handel/store.rs lines 217-234): collect
`best[0..=level]`, fail on a gap, then delegate to the partitioner's combine
with the bumped level. -/
def ReplaceStore.combined (s : ReplaceStore) (level : ℕ) : Option MultiSignature :=
  (s.collectCombined level).bind fun sigs =>
    partitionerCombine sigs (s.combinedTag level)

/-!
Per-level state (src/handel/level.rs).
-/

/-- `LevelState` (src/handel/level.rs lines 11-18). -/
structure LevelState where
  send_started : Bool
  receive_completed : Bool
  send_peers_pos : ℕ
  send_signature_size : ℕ
  send_peers_count : ℕ
deriving DecidableEq

/-- `Level::update_signature_to_send` (src/handel/level.rs lines 103-119),
returning the boolean result together with the updated state. The level's
`send_expected_full_size` field is passed explicitly. -/
def updateSignatureToSend (send_expected_full_size : ℕ) (st : LevelState)
    (signature : MultiSignature) : Bool × LevelState :=
  if signature.len ≤ st.send_signature_size then
    (false, st)
  else
    let st2 := { st with send_signature_size := signature.len, send_peers_count := 0 }
    if st2.send_signature_size = send_expected_full_size then
      (true, { st2 with send_started := true })
    else
      (false, st2)

/-!
The verifier (src/handel/verifier.rs) and the agent's verification plumbing
(src/handel/agent.rs). The identity registry is id → weight (`Option` for
unknown ids); the agent's registry lookup is all the dummy verifier consults.
-/

/-- `VerifyResult` (src/handel/verifier.rs lines 14-20). -/
inductive VerifyResult where
  | ok (votes : ℕ)
  | unknownSigner (signer : ℕ)
  | invalidSignature
  | thresholdNotReached (votes : ℕ) (threshold : ℕ)
deriving DecidableEq

/-- The signer loop of `DummyVerifier::verify_multisig` (src/handel/verifier.rs
lines 149-156): iterate the signer bitset in ascending order, accumulate the
registry weights, and return the first unknown signer as an error. -/
def dummyVerifyLoop (registry : ℕ → Option ℕ) : List ℕ → ℕ → Except ℕ ℕ
  | [], votes => Except.ok votes
  | signer :: rest, votes =>
    match registry signer with
    | some identity_weight => dummyVerifyLoop registry rest (votes + identity_weight)
    | none => Except.error signer

/-- `DummyVerifier::verify_multisig` (src/handel/verifier.rs lines 146-169):
sum the weights of the claimed signers without checking the aggregate
signature; `ThresholdNotReached` (only when `check_threshold`) reports
`signature.len()` as its vote count, as the source does. -/
def dummyVerifyMultisig (threshold : ℕ) (registry : ℕ → Option ℕ)
    (signature : MultiSignature) (check_threshold : Bool) : VerifyResult :=
  match dummyVerifyLoop registry (finsetAsc signature.signers) 0 with
  | Except.error signer => VerifyResult.unknownSigner signer
  | Except.ok votes =>
    if check_threshold ∧ votes < threshold then
      VerifyResult.thresholdNotReached signature.len threshold
    else
      VerifyResult.ok votes

/-- A pending-work item (src/handel/agent.rs lines 23-27). -/
inductive Todo where
  | individual (signature : ℕ) (level : ℕ) (origin : ℕ)
  | multi (signature : MultiSignature) (level : ℕ) (votes : ℕ)
deriving DecidableEq

/-- The multisig verification continuation in `HandelAgent::on_message`
(src/handel/agent.rs lines 424-436): on `Ok` push a `Multi` todo; any other
result is logged and dropped. -/
def applyVerifiedMultisig (todos : List Todo) (multisig : MultiSignature)
    (level : ℕ) (result : VerifyResult) : List Todo :=
  match result with
  | VerifyResult.ok votes => todos ++ [Todo.multi multisig level votes]
  | _ => todos

/-!
The aggregation agent (src/handel/agent.rs): the inbound-message routing and
the final-signature check.
-/

/-- How `HandelAgent::on_message` (src/handel/agent.rs lines 393-413) routes an
inbound message before dispatching verifications. -/
inductive MessageAction where
  | droppedDone
  | droppedReceiveCompleted
  | processed (level : ℕ)
deriving DecidableEq

/-- The routing logic of `HandelAgent::on_message`: drop when `done`; when the
level exists and has `receive_completed`, drop; when the level does not exist
(`level ≥ L`) the source only logs `Invalid level in message` and falls
through, so the message is still processed. -/
def onMessageRoute (done : Bool) (num_levels : ℕ) (receive_completed : ℕ → Bool)
    (level : ℕ) : MessageAction :=
  if done then MessageAction.droppedDone
  else if level < num_levels then
    if receive_completed level then MessageAction.droppedReceiveCompleted
    else MessageAction.processed level
  else
    MessageAction.processed level

/-- The agent state that `check_final_signature` touches: the `done` flag, the
one-shot result sender (present or already taken), the signatures sent over the
result channel so far, and the store. -/
structure AgentState where
  done : Bool
  senderAvailable : Bool
  resultsSent : List MultiSignature
  store : ReplaceStore

/-- `HandelAgent::check_final_signature` (src/handel/agent.rs lines 254-277):
obtain `combined(L-1)`; when its `len()` strictly exceeds the configured
threshold and the one-shot sender is still available, set `done` and send the
combined multi-signature; when the sender is gone, only a warning is logged
(`done` is not set). -/
def checkFinalSignature (threshold : ℕ) (st : AgentState) : AgentState :=
  let last_level := st.store.num_levels - 1
  match st.store.combined last_level with
  | none => st
  | some combined =>
    if threshold < combined.len then
      if st.senderAvailable then
        { st with
          done := true
          senderAvailable := false
          resultsSent := st.resultsSent ++ [combined] }
      else st
    else st

/-!
Identity serialization (src/handel/identity.rs). The BLS public key is opaque;
it is carried as its library-native byte serialization, whose `Serialize`
implementation (external) writes those bytes and reports their length.
-/

/-- Big-endian byte encoding of `n` in exactly `w` bytes. -/
def beBytes (w n : ℕ) : List ℕ :=
  (List.range w).map fun i => n / 256 ^ (w - 1 - i) % 256

/-- A socket address: version, octets and port (src/handel/identity.rs). -/
inductive AddrModel where
  | v4 (octets : List ℕ) (port : ℕ)
  | v6 (octets : List ℕ) (port : ℕ)
deriving DecidableEq

/-- `serialize_socket_addr` (src/handel/identity.rs lines 64-86): writes the
one-byte version, the octets and the big-endian port, but counts only the
octets (`size += 4` / `size += 16`) and the port. Returns the bytes written and
the count the source returns. -/
def serializeSocketAddr : AddrModel → List ℕ × ℕ
  | AddrModel.v4 octets port => (4 :: octets ++ beBytes 2 port, 4 + 2)
  | AddrModel.v6 octets port => (6 :: octets ++ beBytes 2 port, 16 + 2)

/-- `serialized_size_socket_addr` (src/handel/identity.rs lines 88-96):
1 (version) + 2 (port) + 4 or 16 (octets). -/
def serializedSizeSocketAddr : AddrModel → ℕ
  | AddrModel.v4 _ _ => 7
  | AddrModel.v6 _ _ => 19

/-- `Identity` (src/handel/identity.rs lines 13-19), with the public key as its
native byte serialization. -/
structure IdentityModel where
  id : ℕ
  public_key : List ℕ
  address : AddrModel
  weight : ℕ

/-- `Identity::serialize` (src/handel/identity.rs lines 32-41): writes the
big-endian `u16` id, the public key, the socket address and the big-endian
`u64` weight; the returned count starts from `2 /* id */ + 8 /* weight */` and
adds the public key's and the address serializer's counts. Returns the bytes
written and the count the source returns. -/
def identitySerialize (idn : IdentityModel) : List ℕ × ℕ :=
  let addr := serializeSocketAddr idn.address
  (beBytes 2 idn.id ++ idn.public_key ++ addr.1 ++ beBytes 8 idn.weight,
   2 + 8 + idn.public_key.length + addr.2)

/-- `Identity::serialized_size` (src/handel/identity.rs lines 43-45):
`2 + public_key.serialized_size() + serialized_size_socket_addr(address)`. -/
def identitySerializedSize (idn : IdentityModel) : ℕ :=
  2 + idn.public_key.length + serializedSizeSocketAddr idn.address

/-!
Operation sequences on the store, for the monotonicity invariant.
-/

/-- A store mutation: `put_individual` or `put_multisig`. -/
inductive StoreOp where
  | individual (signature : ℕ) (level : ℕ) (peer_id : ℕ)
  | multisig (signature : MultiSignature) (level : ℕ)

/-- Apply one store operation. -/
def applyOp (s : ReplaceStore) : StoreOp → ReplaceStore
  | StoreOp.individual signature level peer_id => s.put_individual signature level peer_id
  | StoreOp.multisig signature level => s.put_multisig signature level

/-- Apply a sequence of store operations in order. -/
def runOps (s : ReplaceStore) (ops : List StoreOp) : ReplaceStore :=
  ops.foldl applyOp s

/-- The signer count of `best[level]`, 0 when absent. -/
def bestLen (s : ReplaceStore) (level : ℕ) : ℕ :=
  match s.multisig_best level with
  | some b => b.len
  | none => 0

/-!
Concrete fixtures used to evaluate the claims.
-/

/-- A roster of four levels (`max_id = 7`, `L = 4`) whose store holds disjoint
bests at every level: `{0}`, `{1}`, `{2,3}`, `{4,5}` — six signers in total. -/
def storeSixSigners : ReplaceStore :=
  { num_levels := 4
    best_level := 3
    individual_received := ∅
    individual_verified := fun _ => ∅
    individual_signatures := fun _ _ => none
    multisig_best := fun i =>
      if i = 0 then some ⟨{100}, {0}⟩
      else if i = 1 then some ⟨{101}, {1}⟩
      else if i = 2 then some ⟨{102}, {2, 3}⟩
      else if i = 3 then some ⟨{103}, {4, 5}⟩
      else none }

/-- The agent state holding `storeSixSigners`, not yet done, sender present. -/
def agentSixSigners : AgentState :=
  { done := false
    senderAvailable := true
    resultsSent := []
    store := storeSixSigners }

/-- A four-level store with `best[0]` and `best[2]` present but `best[1]`
absent — the gap scenario. -/
def storeWithGap : ReplaceStore :=
  { num_levels := 4
    best_level := 2
    individual_received := ∅
    individual_verified := fun _ => ∅
    individual_signatures := fun _ _ => none
    multisig_best := fun i =>
      if i = 0 then some ⟨{100}, {0}⟩
      else if i = 2 then some ⟨{102}, {2, 3}⟩
      else none }

/-- A store whose level 2 holds a one-signer best `{2}`. -/
def storeBestAt2 : ReplaceStore :=
  { num_levels := 4
    best_level := 2
    individual_received := ∅
    individual_verified := fun _ => ∅
    individual_signatures := fun _ _ => none
    multisig_best := fun i => if i = 2 then some ⟨{50}, {2}⟩ else none }

/-- A store whose level 0 holds the one-signer best `{0}`. -/
def storeBestAt0 : ReplaceStore :=
  { num_levels := 3
    best_level := 0
    individual_received := ∅
    individual_verified := fun _ => ∅
    individual_signatures := fun _ _ => none
    multisig_best := fun i => if i = 0 then some ⟨{1}, {0}⟩ else none }

/-- A candidate overlapping `storeBestAt0`'s best (signers `{0, 1}`). -/
def candidateOverlap : MultiSignature := ⟨{2}, {0, 1}⟩

/-- A registry of four unit-weight identities, ids 0-3. -/
def registryFour : ℕ → Option ℕ := fun i => if i < 4 then some 1 else none

/-- A multi-signature claiming signers `{0,1,2,3}` whose aggregate holds a
single atom, so it cannot be the aggregate of those four individual
signatures — a forged aggregate. -/
def forgedMultisig : MultiSignature := ⟨{99}, {0, 1, 2, 3}⟩

/-- The score formula exactly as claim C8 (spec §4.2) states it, for a
candidate that passed the level-full and superset checks: `new_total`,
`added` and `combined` from the current best, the verified-individuals bitset
and the candidate; score 1 only for a single-signer bundle whose individual
signature is novel when `added = 0`. -/
def specScoreC8 (s : ReplaceStore) (candidate : MultiSignature) (level : ℕ) : ℕ :=
  let to_receive := partitionerSize level
  let with_I := candidate.signers ∪ s.individual_verified level
  let t :=
    match s.multisig_best level with
    | some best =>
      if (candidate.signers ∩ best.signers).Nonempty then
        let new_total := with_I.card
        (new_total, new_total - best.len, new_total - candidate.len)
      else
        let final := with_I ∪ best.signers
        let new_total := final.card
        (new_total, new_total - best.len,
          (bitsetXor final (best.signers ∪ candidate.signers)).card)
    | none =>
      let new_total := with_I.card
      (new_total, new_total, new_total - candidate.len)
  if t.2.1 = 0 then
    if candidate.len = 1 ∧ ∀ i ∈ candidate.signers, s.individual_signatures level i = none
    then 1 else 0
  else if t.1 = to_receive then
    1000000 - level * 10 - t.2.2
  else
    100000 - level * 100 + t.2.1 * 10 - t.2.2
/-- C1: the code under test, evaluated at the failing input.
Merging the disjoint multi-signatures with signers `{0}` and `{1}` succeeds
and sums the aggregates, but the resulting signer bitset is the intersection
`∅`, not the union `{0, 1}` the claim states. -/
theorem C1_add_multisig_intersects_instead_of_unions :
    (MultiSignature.add_multisig ⟨{10}, {0}⟩ ⟨{20}, {1}⟩).toOption =
      some ⟨{10, 20}, (∅ : Finset ℕ)⟩ ∧
    ({0} : Finset ℕ) ∪ {1} = {0, 1} ∧
    ((∅ : Finset ℕ) ≠ {0, 1}) := by
  decide

/-- C3: the code under test, evaluated at the failing input.
With `N = 8` identities (so `max_id = 7`), `node_id = 3` and level 1, the
`range_level` in the source tree returns the clamped interval `(0, 8)` — the
whole id space, containing `node_id` itself — whereas the claim's formula gives
the interval `[2, 2] = {2}`. -/
theorem C3_range_level_contradicts_spec_formula :
    ((BinomialPartitioner.new 3 8).range_level 1).toOption = some (0, 8) ∧
    specRange 3 1 = (2, 2) ∧
    ((0, 8) : ℕ × ℕ) ≠ (2, 2) ∧
    0 ≤ 3 ∧ 3 ≤ 8 := by
  decide

/-- C4: the code under test, evaluated at the failing input.
With `L = 4` levels and `done = false`, a message carrying level 4 (≥ L) is
not dropped by `on_message`: the invalid level is only logged and the message
is still processed (verifications dispatched, todos enqueued), contrary to the
claim — and the pending todo later panics the store's evaluation at the
missing level. -/
theorem C4_invalid_level_message_not_dropped :
    onMessageRoute false 4 (fun _ => false) 4 = MessageAction.processed 4 ∧
    MessageAction.processed 4 ≠ MessageAction.droppedDone ∧
    MessageAction.processed 4 ≠ MessageAction.droppedReceiveCompleted := by
  decide

/-- C6 counterexample: with `send_signature_size = 0`, `send_expected_full_size
= 2` and a candidate of length 1, `update_signature_to_send` does update the
size to 1 (1 > 0) but returns `false`, refuting the claim that it returns true
iff the candidate is longer than the current size. -/
theorem C6_counterexample_update_returns_false :
    (updateSignatureToSend 2
      ⟨false, false, 0, 0, 0⟩ ⟨{5}, {7}⟩).1 = false ∧
    (updateSignatureToSend 2
      ⟨false, false, 0, 0, 0⟩ ⟨{5}, {7}⟩).2.send_signature_size = 1 ∧
    (0 : ℕ) < 1 := by
  decide

/-- C6 amended: `update_signature_to_send` updates `send_signature_size` iff
the candidate is strictly longer than the current size; it returns true iff it
updates and the new size equals `send_expected_full_size`, and in that case the
level is marked as started for sending. -/
theorem C6_update_signature_to_send (expected : ℕ) (st : LevelState)
    (signature : MultiSignature) :
    ((updateSignatureToSend expected st signature).2.send_signature_size =
      Nat.max st.send_signature_size signature.len) ∧
    ((updateSignatureToSend expected st signature).1 = true ↔
      st.send_signature_size < signature.len ∧ signature.len = expected) ∧
    ((updateSignatureToSend expected st signature).1 = true →
      (updateSignatureToSend expected st signature).2.send_started = true) := by
  unfold updateSignatureToSend
  dsimp only
  split_ifs with h1 h2 <;> simp_all <;> omega

/-- C10: the code under test, evaluated at the failing input.
For an identity with a 2-byte public key and a V4 address, `serialize` writes
19 bytes but returns 18 (the socket-address serializer never counts the
version byte), while `serialized_size` reports 11 (it omits the 8-byte weight
entirely): the three quantities the claim says are equal are pairwise
different. -/
theorem C10_serialized_size_mismatch :
    (identitySerialize ⟨0, [1, 2], AddrModel.v4 [127, 0, 0, 1] 4000, 1⟩).1.length = 19 ∧
    (identitySerialize ⟨0, [1, 2], AddrModel.v4 [127, 0, 0, 1] 4000, 1⟩).2 = 18 ∧
    identitySerializedSize ⟨0, [1, 2], AddrModel.v4 [127, 0, 0, 1] 4000, 1⟩ = 11 ∧
    (19 : ℕ) ≠ 18 ∧ (18 : ℕ) ≠ 11 ∧ (19 : ℕ) ≠ 11 := by
  decide

/-- C2 counterexample: in a four-level roster with unit weights and threshold
6, a state whose `combined(L-1)` covers exactly six signers (voting weight 6,
which reaches the threshold) does not fire `check_final_signature`: the source
requires `combined.len() > threshold`, so `done` stays false and nothing is
sent on the result channel, refuting the claim that `done` becomes true when
the combined weight reaches 6. -/
theorem C2_counterexample_threshold_reached_not_fired :
    (storeSixSigners.combined 3).map MultiSignature.len = some 6 ∧
    (checkFinalSignature 6 agentSixSigners).done = false ∧
    (checkFinalSignature 6 agentSixSigners).resultsSent = [] := by
  decide

/-- C2 (amended): whenever `combined(L-1)` exists and the one-shot result
sender is still available, `check_final_signature` sets `done` and sends the
combined multi-signature exactly when the combined signer count strictly
exceeds the configured threshold (the source compares `combined.len()`, the
bitset cardinality, with `>`); firing consumes the sender, so a second send is
impossible. -/
theorem C2_check_final_signature_fires_iff_len_gt_threshold
    (threshold : ℕ) (st : AgentState) (m : MultiSignature)
    (hc : st.store.combined (st.store.num_levels - 1) = some m)
    (hs : st.senderAvailable = true) (hd : st.done = false) :
    ((checkFinalSignature threshold st).done = true ↔ threshold < m.len) ∧
    ((checkFinalSignature threshold st).resultsSent =
      if threshold < m.len then st.resultsSent ++ [m] else st.resultsSent) ∧
    ((checkFinalSignature threshold st).senderAvailable = false ↔ threshold < m.len) := by
  unfold checkFinalSignature
  dsimp only
  rw [hc]
  by_cases h : threshold < m.len
  · simp [h, hs]
  · simp [h, hd, hs]

/-- C2 witness: with unit weights, threshold 5 and six combined signers, the
amended theorem applies and the final signature fires. -/
theorem C2_check_final_signature_witness :
    agentSixSigners.store.combined (agentSixSigners.store.num_levels - 1) =
      some ⟨{100, 101, 102, 103}, {0, 1, 2, 3, 4, 5}⟩ ∧
    agentSixSigners.senderAvailable = true ∧
    agentSixSigners.done = false ∧
    (((checkFinalSignature 5 agentSixSigners).done = true ↔
        5 < MultiSignature.len ⟨{100, 101, 102, 103}, {0, 1, 2, 3, 4, 5}⟩) ∧
     ((checkFinalSignature 5 agentSixSigners).resultsSent =
        if 5 < MultiSignature.len ⟨{100, 101, 102, 103}, {0, 1, 2, 3, 4, 5}⟩ then
          agentSixSigners.resultsSent ++ [⟨{100, 101, 102, 103}, {0, 1, 2, 3, 4, 5}⟩]
        else agentSixSigners.resultsSent) ∧
     ((checkFinalSignature 5 agentSixSigners).senderAvailable = false ↔
        5 < MultiSignature.len ⟨{100, 101, 102, 103}, {0, 1, 2, 3, 4, 5}⟩)) :=
  ⟨by decide, by decide, by decide,
    C2_check_final_signature_fires_iff_len_gt_threshold 5 agentSixSigners
      ⟨{100, 101, 102, 103}, {0, 1, 2, 3, 4, 5}⟩ (by decide) (by decide) (by decide)⟩

/-- C5 counterexample: the verifier the agent constructs is the
`DummyVerifier`; on a forged multi-signature claiming known signers
`{0,1,2,3}` (its aggregate holds one atom, so it is not the aggregate of those
four individual signatures) it returns `Ok` with the summed weights, not the
`InvalidSignature` the claim states. -/
theorem C5_counterexample_forged_aggregate_accepted :
    dummyVerifyMultisig 6 registryFour forgedMultisig false = VerifyResult.ok 4 ∧
    VerifyResult.ok 4 ≠ VerifyResult.invalidSignature ∧
    Multiset.card forgedMultisig.signature ≠ forgedMultisig.signers.card := by
  decide

/-- Membership in the ascending iteration agrees with bitset membership. -/
theorem mem_finsetAsc (s : Finset ℕ) (i : ℕ) : i ∈ finsetAsc s ↔ i ∈ s := by
  unfold finsetAsc
  constructor
  · intro hi
    have h2 := (List.mem_filter.mp hi).2
    simpa using h2
  · intro hi
    refine List.mem_filter.mpr ⟨?_, by simpa using hi⟩
    have hle : id i ≤ s.sup id := Finset.le_sup hi
    exact List.mem_range.mpr (Nat.lt_succ_of_le hle)

/-- The ascending iteration of a bitset has no duplicates. -/
theorem finsetAsc_nodup (s : Finset ℕ) : (finsetAsc s).Nodup :=
  (List.nodup_range _).filter _

/-- The ascending iteration of a bitset is a permutation of its element list. -/
theorem finsetAsc_perm_toList (s : Finset ℕ) : List.Perm (finsetAsc s) s.toList := by
  refine List.perm_of_nodup_nodup_toFinset_eq (finsetAsc_nodup s) s.nodup_toList ?_
  ext i
  simp [mem_finsetAsc]

/-- The ascending iteration of a bitset enumerates `card` many ids. -/
theorem finsetAsc_length (s : Finset ℕ) : (finsetAsc s).length = s.card := by
  rw [(finsetAsc_perm_toList s).length_eq]
  exact Finset.length_toList s

/-- The signer loop of the dummy verifier accumulates the registry weights when
every signer is known. -/
theorem dummyVerifyLoop_all_known (registry : ℕ → Option ℕ) :
    ∀ (ids : List ℕ) (acc : ℕ), (∀ i ∈ ids, (registry i).isSome) →
      dummyVerifyLoop registry ids acc =
        Except.ok (acc + (ids.map fun i => (registry i).getD 0).sum) := by
  intro ids
  induction ids with
  | nil => intro acc _; simp [dummyVerifyLoop]
  | cons x xs ih =>
    intro acc h
    obtain ⟨w, hw⟩ := Option.isSome_iff_exists.mp (h x (List.mem_cons_self x xs))
    have hrest : ∀ i ∈ xs, (registry i).isSome := fun i hi => h i (List.mem_cons_of_mem x hi)
    rw [dummyVerifyLoop, hw]
    dsimp only
    rw [ih (acc + w) hrest]
    simp [hw]
    omega

/-- C5 (amended): the agent's verifier is the `DummyVerifier`
(src/handel/agent.rs line 123; the `ThreadPoolVerifier` construction is
commented out), and it never checks the aggregate signature: for every
multi-signature whose claimed signers are all known ids — a forged aggregate
included — it returns `Ok` with the summed registry weights, and the agent's
verification continuation then enqueues the `Multi` todo. -/
theorem C5_dummy_verifier_accepts_known_signers
    (threshold : ℕ) (registry : ℕ → Option ℕ) (signature : MultiSignature)
    (todos : List Todo) (level : ℕ)
    (h : ∀ i ∈ signature.signers, (registry i).isSome) :
    dummyVerifyMultisig threshold registry signature false =
      VerifyResult.ok (∑ i ∈ signature.signers, (registry i).getD 0) ∧
    applyVerifiedMultisig todos signature level
        (dummyVerifyMultisig threshold registry signature false) =
      todos ++ [Todo.multi signature level
        (∑ i ∈ signature.signers, (registry i).getD 0)] := by
  have hknown : ∀ i ∈ finsetAsc signature.signers, (registry i).isSome := by
    intro i hi
    exact h i ((mem_finsetAsc signature.signers i).mp hi)
  have hloop := dummyVerifyLoop_all_known registry (finsetAsc signature.signers) 0 hknown
  have hsum : ((finsetAsc signature.signers).map fun i => (registry i).getD 0).sum =
      ∑ i ∈ signature.signers, (registry i).getD 0 := by
    rw [← Finset.sum_to_list]
    exact List.Perm.sum_eq
      (List.Perm.map _ (finsetAsc_perm_toList signature.signers))
  have hres : dummyVerifyMultisig threshold registry signature false =
      VerifyResult.ok (∑ i ∈ signature.signers, (registry i).getD 0) := by
    unfold dummyVerifyMultisig
    rw [hloop]
    simp [hsum]
  refine ⟨hres, ?_⟩
  rw [hres]
  rfl

/-- C5 witness: the amended theorem applied to the forged aggregate over the
four-identity unit-weight registry. -/
theorem C5_dummy_verifier_accepts_witness :
    (∀ i ∈ forgedMultisig.signers, (registryFour i).isSome) ∧
    (dummyVerifyMultisig 6 registryFour forgedMultisig false =
      VerifyResult.ok (∑ i ∈ forgedMultisig.signers, (registryFour i).getD 0) ∧
    applyVerifiedMultisig [] forgedMultisig 3
        (dummyVerifyMultisig 6 registryFour forgedMultisig false) =
      [] ++ [Todo.multi forgedMultisig 3
        (∑ i ∈ forgedMultisig.signers, (registryFour i).getD 0)]) :=
  ⟨by decide, C5_dummy_verifier_accepts_known_signers 6 registryFour forgedMultisig [] 3
    (by decide)⟩

/-- The complements bitset of `check_merge` is the verified ids not already in
the multi-signature: `(a ∩ v) ^ v = v \ a`. -/
theorem bitsetXor_inter_self (a v : Finset ℕ) : bitsetXor (a ∩ v) v = v \ a := by
  unfold bitsetXor
  ext i
  simp only [Finset.mem_union, Finset.mem_sdiff, Finset.mem_inter]
  tauto

/-- Folding `add_individual` over distinct ids disjoint from the current
signers adds exactly those ids. -/
theorem addIndividualsFold_signers_len (s : ReplaceStore) (level : ℕ) :
    ∀ (ids : List ℕ) (m : MultiSignature), ids.Nodup →
      (∀ id ∈ ids, id ∉ m.signers) →
      (addIndividualsFold s level m ids).signers = m.signers ∪ ids.toFinset ∧
      (addIndividualsFold s level m ids).len = m.len + ids.length := by
  intro ids
  induction ids with
  | nil => intro m _ _; simp [addIndividualsFold, MultiSignature.len]
  | cons x xs ih =>
    intro m hnd hnm
    have hx : x ∉ m.signers := hnm x (List.mem_cons_self x xs)
    have hstep : addIndividualsFold s level m (x :: xs) =
        addIndividualsFold s level
          { signature := ((s.individual_signatures level x).getD 0) ::ₘ m.signature,
            signers := insert x m.signers } xs := by
      simp [addIndividualsFold, MultiSignature.add_individual, hx]
    have hxs : ∀ id ∈ xs, id ∉ insert x m.signers := by
      intro id hid
      have hne : id ≠ x := by
        intro hcontra
        exact (List.nodup_cons.mp hnd).1 (hcontra ▸ hid)
      have hnotm : id ∉ m.signers := hnm id (List.mem_cons_of_mem x hid)
      simp [Finset.mem_insert, hne, hnotm]
    obtain ⟨hsig, hlen⟩ :=
      ih ⟨((s.individual_signatures level x).getD 0) ::ₘ m.signature, insert x m.signers⟩
        (List.nodup_cons.mp hnd).2 hxs
    constructor
    · rw [hstep, hsig]
      simp only [List.toFinset_cons]
      ext i
      simp [Finset.mem_insert, Finset.mem_union]
    · rw [hstep, hlen]
      simp only [MultiSignature.len] at *
      rw [Finset.card_insert_of_not_mem hx]
      simp [List.length_cons]
      omega

/-- When `check_merge` accepts a replacement while a best exists, the
replacement is strictly longer than the old best: the acceptance guard requires
`complements.card + merged.len > best.len` and the fold adds exactly the
complement ids. -/
theorem check_merge_strictly_longer (s : ReplaceStore) (ms : MultiSignature)
    (level : ℕ) (b m : MultiSignature)
    (hb : s.multisig_best level = some b)
    (hm : s.check_merge ms level = some m) : b.len < m.len := by
  unfold ReplaceStore.check_merge at hm
  rw [hb] at hm
  dsimp only at hm
  generalize hM : (match ms.add_multisig b with
    | Except.ok merged => merged
    | Except.error _ => ms) = m1 at hm
  by_cases hguard :
      (bitsetXor (m1.signers ∩ s.individual_verified level) (s.individual_verified level)).card
        + m1.len ≤ b.len
  · rw [if_pos hguard] at hm
    exact absurd hm (by simp)
  · rw [if_neg hguard] at hm
    have hmeq : addIndividualsFold s level m1
        (finsetAsc (bitsetXor (m1.signers ∩ s.individual_verified level)
          (s.individual_verified level))) = m := by
      exact Option.some.inj hm
    have hdisj : ∀ id ∈ finsetAsc (bitsetXor (m1.signers ∩ s.individual_verified level)
        (s.individual_verified level)), id ∉ m1.signers := by
      intro id hid
      have h2 := (mem_finsetAsc _ id).mp hid
      rw [bitsetXor_inter_self] at h2
      exact (Finset.mem_sdiff.mp h2).2
    have hlen := (addIndividualsFold_signers_len s level
      (finsetAsc (bitsetXor (m1.signers ∩ s.individual_verified level)
        (s.individual_verified level))) m1 (finsetAsc_nodup _) hdisj).2
    rw [hmeq] at hlen
    rw [hlen, finsetAsc_length]
    omega

/-- `put_multisig` never shrinks any level's best signer count. -/
theorem put_multisig_bestLen_le (s : ReplaceStore) (ms : MultiSignature)
    (lvl l : ℕ) : bestLen s l ≤ bestLen (s.put_multisig ms lvl) l := by
  unfold ReplaceStore.put_multisig
  cases hcm : s.check_merge ms lvl with
  | none => exact Nat.le_refl _
  | some m =>
    unfold bestLen
    dsimp only
    by_cases hl : l = lvl
    · subst hl
      rw [if_pos rfl]
      cases hbest : s.multisig_best l with
      | none => exact Nat.zero_le _
      | some b => exact Nat.le_of_lt (check_merge_strictly_longer s ms l b m hbest hcm)
    · rw [if_neg hl]

/-- Any store operation preserves `put_multisig`'s monotonicity of the best
signer count (for `put_individual`, the pre-pass only touches the individual
bitsets and maps). -/
theorem applyOp_bestLen_le (s : ReplaceStore) (op : StoreOp) (l : ℕ) :
    bestLen s l ≤ bestLen (applyOp s op) l := by
  cases op with
  | multisig ms lvl => exact put_multisig_bestLen_le s ms lvl l
  | individual signature lvl peer_id =>
    exact put_multisig_bestLen_le
      { s with
        individual_verified := fun i =>
          if i = lvl then insert peer_id (s.individual_verified i)
          else s.individual_verified i
        individual_signatures := fun i =>
          if i = lvl then
            fun p => if p = peer_id then some signature else s.individual_signatures i p
          else s.individual_signatures i }
      (MultiSignature.from_individual signature peer_id) lvl l

/-- Running any sequence of store operations never shrinks a level's best. -/
theorem runOps_bestLen_le (ops : List StoreOp) : ∀ (s : ReplaceStore) (l : ℕ),
    bestLen s l ≤ bestLen (runOps s ops) l := by
  induction ops with
  | nil => intro s l; exact Nat.le_refl _
  | cons op rest ih =>
    intro s l
    exact Nat.le_trans (applyOp_bestLen_le s op l) (ih (applyOp s op) l)

/-- C9: along every sequence of `put_individual`/`put_multisig` operations the
signer count of `best[l]` is monotonically non-decreasing, and whenever
`put_multisig` replaces an existing best (`check_merge` accepts), the
replacement is strictly longer than the previous best. -/
theorem C9_best_len_monotone (s : ReplaceStore) (ops : List StoreOp)
    (l i j : ℕ) (hij : i ≤ j) (ms : MultiSignature) (lvl : ℕ)
    (b m : MultiSignature) (hb : s.multisig_best lvl = some b)
    (hm : s.check_merge ms lvl = some m) :
    bestLen (runOps s (ops.take i)) l ≤ bestLen (runOps s (ops.take j)) l ∧
    b.len < m.len := by
  constructor
  · have hj : i + (j - i) = j := by omega
    rw [← hj, List.take_add]
    unfold runOps
    rw [List.foldl_append]
    exact runOps_bestLen_le ((ops.drop i).take (j - i)) (List.foldl applyOp s (ops.take i)) l
  · exact check_merge_strictly_longer s ms lvl b m hb hm

/-- C9 witness: a store with a one-signer best at level 0 and an overlapping
two-signer candidate that `check_merge` accepts. -/
theorem C9_best_len_monotone_witness :
    (0 : ℕ) ≤ 1 ∧
    storeBestAt0.multisig_best 0 = some ⟨{1}, {0}⟩ ∧
    storeBestAt0.check_merge candidateOverlap 0 = some candidateOverlap ∧
    (bestLen (runOps storeBestAt0 ([StoreOp.multisig candidateOverlap 0].take 0)) 0 ≤
      bestLen (runOps storeBestAt0 ([StoreOp.multisig candidateOverlap 0].take 1)) 0 ∧
     MultiSignature.len ⟨{1}, {0}⟩ < candidateOverlap.len) :=
  ⟨by decide, by decide, by decide,
    C9_best_len_monotone storeBestAt0 [StoreOp.multisig candidateOverlap 0] 0 0 1
      (by decide) candidateOverlap 0 ⟨{1}, {0}⟩ candidateOverlap (by decide) (by decide)⟩

/-- Characterisation of the collection loop of `combined`: it fails exactly
when the levels holding a best are not an initial segment, and on success it
returns the bests of the initial segment in level order. -/
theorem collectCombined_characterisation (s : ReplaceStore) : ∀ (l : ℕ),
    (s.collectCombined l = none ∧
      ¬ (∀ i ≤ l, (s.multisig_best i).isSome = true →
          ∀ j < i, (s.multisig_best j).isSome = true)) ∨
    (∃ sigs, s.collectCombined l = some sigs ∧
      (∀ i ≤ l, (s.multisig_best i).isSome = true →
        ∀ j < i, (s.multisig_best j).isSome = true) ∧
      (∀ i ≤ l, ((s.multisig_best i).isSome = true ↔ i < sigs.length)) ∧
      sigs.length ≤ l + 1 ∧
      sigs = (List.range sigs.length).filterMap s.multisig_best) := by
  intro l
  induction l with
  | zero =>
    right
    cases hb : s.multisig_best 0 with
    | none =>
      refine ⟨[], ?_, ?_, ?_, ?_, ?_⟩
      · unfold ReplaceStore.collectCombined
        simp [collectStep, hb, List.range_succ]
      · intro i hi hp j hj
        omega
      · intro i hi
        interval_cases i
        simp [hb]
      · simp
      · simp
    | some ms =>
      refine ⟨[ms], ?_, ?_, ?_, ?_, ?_⟩
      · unfold ReplaceStore.collectCombined
        simp [collectStep, hb, List.range_succ]
      · intro i hi hp j hj
        omega
      · intro i hi
        interval_cases i
        simp [hb]
      · simp
      · simp [List.range_succ, hb]
  | succ l ih =>
    have hsucc : s.collectCombined (l + 1) =
        collectStep s (s.collectCombined l) (l + 1) := by
      unfold ReplaceStore.collectCombined
      rw [List.range_succ, List.foldl_append]
      rfl
    rcases ih with ⟨hnone, hbad⟩ | ⟨sigs, hsome, hgood, hiff, hlen, hmap⟩
    · left
      constructor
      · rw [hsucc, hnone]
        rfl
      · intro hg
        exact hbad fun i hi hp j hj => hg i (Nat.le_succ_of_le hi) hp j hj
    · cases hb : s.multisig_best (l + 1) with
      | none =>
        right
        refine ⟨sigs, ?_, ?_, ?_, ?_, hmap⟩
        · rw [hsucc, hsome]
          simp [collectStep, hb]
        · intro i hi hp j hj
          rcases Nat.lt_or_ge i (l + 1) with hil | hil
          · exact hgood i (by omega) hp j hj
          · have : i = l + 1 := by omega
            rw [this, hb] at hp
            simp at hp
        · intro i hi
          rcases Nat.lt_or_ge i (l + 1) with hil | hil
          · exact hiff i (by omega)
          · have hieq : i = l + 1 := by omega
            rw [hieq, hb]
            simp
            omega
        · omega
      | some ms =>
        by_cases hlt : sigs.length < l + 1
        · left
          constructor
          · rw [hsucc, hsome]
            simp [collectStep, hb, hlt]
          · intro hg
            have hpl : (s.multisig_best (l + 1)).isSome = true := by
              rw [hb]; rfl
            have hj := hg (l + 1) (Nat.le_refl _) hpl sigs.length hlt
            have := (hiff sigs.length (by omega)).mp hj
            omega
        · right
          have hleq : sigs.length = l + 1 := by omega
          refine ⟨sigs ++ [ms], ?_, ?_, ?_, ?_, ?_⟩
          · rw [hsucc, hsome]
            simp [collectStep, hb, hlt]
          · intro i hi hp j hj
            have hjl : j ≤ l := by omega
            exact (hiff j hjl).mpr (by omega)
          · intro i hi
            rw [List.length_append]
            rcases Nat.lt_or_ge i (l + 1) with hil | hil
            · have := (hiff i (by omega)).mpr (by omega)
              simp [this]
              omega
            · have hieq : i = l + 1 := by omega
              rw [hieq, hb]
              simp
              omega
          · rw [List.length_append]
            simp
            omega
          · have hmap2 : sigs = List.filterMap s.multisig_best (List.range (l + 1)) := by
              rw [← hleq]
              exact hmap
            rw [List.length_append, hleq]
            have h2 : l + 1 + [ms].length = l + 2 := by simp
            rw [h2, List.range_succ, List.filterMap_append, ← hmap2]
            simp [hb]

/-- C7: `combined(l)` returns `None` exactly when some level strictly below a
level holding a best in `0..=l` holds none; otherwise it returns the merge of
the collected bests (the bests of levels `0..` in order), and the level tag it
passes to the partitioner's combine is `min(l + 1, L - 1)`. -/
theorem C7_combined_none_iff_gap (s : ReplaceStore) (l : ℕ)
    (hl : l < s.num_levels) :
    (s.combined l = none ↔
      ∃ i, i ≤ l ∧ (s.multisig_best i).isSome = true ∧
        ∃ j, j < i ∧ s.multisig_best j = none) ∧
    (∀ sigs, s.collectCombined l = some sigs →
      s.combined l = some (mergeList sigs) ∧
      sigs = (List.range sigs.length).filterMap s.multisig_best) ∧
    s.combinedTag l = Nat.min (l + 1) (s.num_levels - 1) := by
  refine ⟨?_, ?_, ?_⟩
  · rcases collectCombined_characterisation s l with ⟨hn, hbad⟩ | ⟨sigs, hs, hgood, _, _, _⟩
    · constructor
      · intro _
        push_neg at hbad
        obtain ⟨i, hi, hp, j, hj, hq⟩ := hbad
        exact ⟨i, hi, hp, j, hj, Option.not_isSome_iff_eq_none.mp (by simpa using hq)⟩
      · intro _
        unfold ReplaceStore.combined
        rw [hn]
        rfl
    · constructor
      · intro hcomb
        unfold ReplaceStore.combined at hcomb
        rw [hs] at hcomb
        simp [partitionerCombine] at hcomb
      · rintro ⟨i, hi, hp, j, hj, hq⟩
        have hcontra := hgood i hi hp j hj
        rw [hq] at hcontra
        simp at hcontra
  · intro sigs hsigs
    constructor
    · unfold ReplaceStore.combined
      rw [hsigs]
      rfl
    · rcases collectCombined_characterisation s l with ⟨hn, _⟩ | ⟨sigs2, hs2, _, _, _, hmap2⟩
      · rw [hn] at hsigs
        exact absurd hsigs (by simp)
      · rw [hs2] at hsigs
        rw [← Option.some.inj hsigs]
        exact hmap2
  · unfold ReplaceStore.combinedTag Nat.min
    split_ifs <;> omega

/-- C7 witness: the gap scenario — `best[0]` and `best[2]` present, `best[1]`
absent — at `l = 2` in a four-level store. -/
theorem C7_combined_witness :
    2 < storeWithGap.num_levels ∧
    ((storeWithGap.combined 2 = none ↔
      ∃ i, i ≤ 2 ∧ (storeWithGap.multisig_best i).isSome = true ∧
        ∃ j, j < i ∧ storeWithGap.multisig_best j = none) ∧
     (∀ sigs, storeWithGap.collectCombined 2 = some sigs →
       storeWithGap.combined 2 = some (mergeList sigs) ∧
       sigs = (List.range sigs.length).filterMap storeWithGap.multisig_best) ∧
     storeWithGap.combinedTag 2 = Nat.min (2 + 1) (storeWithGap.num_levels - 1)) :=
  ⟨by decide, C7_combined_none_iff_gap storeWithGap 2 (by decide)⟩



/-- C8: for a candidate that the level-full and superset checks do not score 0,
`evaluate_multisig` computes exactly the claimed score formula — in particular
the `added = 0` branch can only yield 0, because a single-signer candidate with
`added = 0` would already have been caught by the superset check. -/
theorem C8_evaluate_multisig_matches_spec (s : ReplaceStore)
    (candidate : MultiSignature) (level votes : ℕ)
    (hfull : ∀ b, s.multisig_best level = some b → b.len ≠ partitionerSize level)
    (hsup : ∀ b, s.multisig_best level = some b → ¬ candidate.signers ⊆ b.signers) :
    s.evaluate_multisig candidate level votes = specScoreC8 s candidate level := by
  unfold ReplaceStore.evaluate_multisig specScoreC8
  cases hb : s.multisig_best level with
  | none =>
    unfold evaluateTail
    dsimp only
    by_cases h0 : (candidate.signers ∪ s.individual_verified level).card = 0
    · have hs0 : candidate.signers = ∅ := by
        have hsub : candidate.signers ⊆ candidate.signers ∪ s.individual_verified level :=
          Finset.subset_union_left
        have hemp := Finset.card_eq_zero.mp h0
        rw [hemp] at hsub
        exact Finset.subset_empty.mp hsub
      have hlen : ¬ candidate.len = 1 := by
        simp [MultiSignature.len, hs0]
      simp [h0, hlen]
    · simp [h0]
  | some b =>
    have hfull2 : ¬ partitionerSize level = b.len := fun h => hfull b hb h.symm
    have hsup2 : ¬ candidate.signers ⊆ b.signers := hsup b hb
    dsimp only
    rw [if_neg hfull2, if_neg hsup2]
    unfold evaluateTail
    dsimp only
    by_cases hov : (candidate.signers ∩ b.signers).Nonempty
    · have hpos : 0 < (candidate.signers ∩ b.signers).card := Finset.card_pos.mpr hov
      rw [if_pos hpos, if_pos hov]
      by_cases hadd :
          (candidate.signers ∪ s.individual_verified level).card - b.len = 0
      · have hlen : ¬ candidate.len = 1 := by
          intro h1
          obtain ⟨z, hz⟩ := Finset.card_eq_one.mp h1
          obtain ⟨x, hx⟩ := hov
          have hxc := (Finset.mem_inter.mp hx).1
          have hxb := (Finset.mem_inter.mp hx).2
          refine hsup2 ?_
          intro w hw
          rw [hz] at hw hxc
          have hwz := Finset.mem_singleton.mp hw
          have hxz := Finset.mem_singleton.mp hxc
          rw [hwz, ← hxz]
          exact hxb
        simp [hadd, hlen]
      · simp [hadd]
    · have hpos : ¬ 0 < (candidate.signers ∩ b.signers).card := by
        simp only [Finset.card_pos]
        exact hov
      rw [if_neg hpos, if_neg hov]
      by_cases hadd :
          (candidate.signers ∪ s.individual_verified level ∪ b.signers).card - b.len = 0
      · exfalso
        have hsub : b.signers ⊆ candidate.signers ∪ s.individual_verified level ∪ b.signers :=
          Finset.subset_union_right
        have hcard : (candidate.signers ∪ s.individual_verified level ∪ b.signers).card ≤
            b.signers.card := by
          simp only [MultiSignature.len] at hadd
          omega
        have hequ := Finset.eq_of_subset_of_card_le hsub hcard
        refine hsup2 ?_
        intro w hw
        rw [hequ]
        exact Finset.mem_union_left _ (Finset.mem_union_left _ hw)
      · rw [if_neg hadd, if_neg hadd]

/-- C8 witness: a level-2 store with a one-signer best (not full, since
`to_receive = 2`) and a disjoint one-signer candidate. -/
theorem C8_evaluate_multisig_witness :
    (∀ b, storeBestAt2.multisig_best 2 = some b → b.len ≠ partitionerSize 2) ∧
    (∀ b, storeBestAt2.multisig_best 2 = some b →
      ¬ (MultiSignature.from_individual 9 4).signers ⊆ b.signers) ∧
    storeBestAt2.evaluate_multisig (MultiSignature.from_individual 9 4) 2 1 =
      specScoreC8 storeBestAt2 (MultiSignature.from_individual 9 4) 2 :=
  ⟨fun b hb => by
      rw [← Option.some.inj hb]
      decide,
   fun b hb => by
      rw [← Option.some.inj hb]
      decide,
   C8_evaluate_multisig_matches_spec storeBestAt2 (MultiSignature.from_individual 9 4) 2 1
     (fun b hb => by
       rw [← Option.some.inj hb]
       decide)
     (fun b hb => by
       rw [← Option.some.inj hb]
       decide)⟩
